import Mathlib

/-!
Verification development for the CentAgent monitoring pipeline.

This file gives a shallow embedding, in Lean 4, of the parts of the
repository that the retention, batching, tailer-registry, manager and
query claims are about:

* `internal/storage` (file `part_013`): the `ContainerStat` / `ContainerLog`
  row types, the limit normalisation constants, the limited delete
  operations (`DeleteContainerStatsBeforeLimited`,
  `DeleteContainerStatsNonAnomalyInRangeLimited`, and the log analogues)
  and the range queries (`QueryContainerStats`, `QueryContainerLogs`).
* `internal/monitor/config.go`: `RetentionConfig.withDefaults` and the
  retention policies.
* `internal/monitor/retention.go`: the batch-delete loops and `runOnce`.
* `internal/monitor/stats.go`: `calculateCPUPercent` and the
  size-or-time batching `writeLoop`.
* `internal/monitor/logs.go`: the tailer registry operations and the
  lossy bounded push in `scanLines`.
* the `Manager` (file `part_010`): one-shot `Start` and the first-error
  capture returned by `Wait`.

Modelling conventions:

* Go `time.Time` / `time.Duration` values are modelled as `Int`
  (nanoseconds); only their ordering and subtraction are used by the code.
* Go `float64` fields (`CPUPercent`, thresholds, the CPU formula) are
  modelled as `ℚ`: the claims are about the comparisons and the algebraic
  formula, not about rounding.
* A database table is a `List` of rows in primary-key (`id`) order, the
  order in which SQLite returns them under `ORDER BY id ASC`; `id` is the
  auto-increment primary key, so real tables have pairwise distinct ids
  (`Nodup` hypotheses below).
* Row columns never consulted by any claim (byte counters, raw JSON,
  names of unused fields) are omitted from the row structures.
-/

namespace CentAgent

/-- Go `time.Duration` constants, in nanoseconds. -/
def second : Int := 1000000000

def hour : Int := 3600 * second

def day : Int := 24 * hour

/-- A `container_stats` row (`storage.ContainerStat`): auto-increment primary
key `id`, sampling time `CollectedAt`, and the two percentage columns that the
retention predicate consults. -/
structure ContainerStat where
  id : Nat
  containerID : String
  containerName : String
  cpuPercent : ℚ
  memPercent : ℚ
  collectedAt : Int
  deriving Repr, DecidableEq

/-- A `container_logs` row (`storage.ContainerLog`). -/
structure ContainerLog where
  id : Nat
  containerID : String
  containerName : String
  source : String
  level : String
  message : String
  timestamp : Int
  deriving Repr, DecidableEq

/-! Constants from `internal/storage`: `defaultLimit = 200`, `maxLimit = 5000`,
`defaultDeleteLimit = 500`, `maxDeleteLimit = 900`. -/

def defaultLimit : Int := 200

def maxLimit : Int := 5000

def defaultDeleteLimit : Int := 500

def maxDeleteLimit : Int := 900

/-- Go `storage.normalizeLimit`: `v <= 0` becomes the default 200, anything over
5000 is clamped to 5000. -/
def normalizeLimit (v : Int) : Int :=
  if v ≤ 0 then defaultLimit else if v > maxLimit then maxLimit else v

/-- Go `storage.normalizeDeleteLimit`: `v <= 0` becomes the default 500, anything
over 900 is clamped to 900. -/
def normalizeDeleteLimit (v : Int) : Int :=
  if v ≤ 0 then defaultDeleteLimit else if v > maxDeleteLimit then maxDeleteLimit else v

/-- The id-selection subquery shared by the four `DeleteContainer...Limited`
storage functions: `Select("id").Where(...).Order("id ASC").Limit(lim)`, i.e.
the ids of the first `normalizeDeleteLimit limit` rows matching `p` in the
table's `id ASC` order (the list order). -/
def dwlIds (p : α → Bool) (getId : α → Nat) (limit : Int) (db : List α) : List Nat :=
  ((db.filter p).map getId).take (normalizeDeleteLimit limit).toNat

/-- One limited delete, the common shape of the four
`DeleteContainer...Limited` storage functions: select the ids of the first
`normalizeDeleteLimit limit` rows matching `p`, then delete every row whose id
is in that list (`Where("id IN ?", ids).Delete`), returning `RowsAffected`
and the resulting table.  An empty id selection returns `(0, db)` without
issuing a delete. -/
def deleteWhereLimited (p : α → Bool) (getId : α → Nat) (limit : Int) (db : List α) :
    Int × List α :=
  if (dwlIds p getId limit db).isEmpty then (0, db)
  else (((db.filter fun r => (dwlIds p getId limit db).contains (getId r)).length : Int),
        db.filter fun r => !(dwlIds p getId limit db).contains (getId r))

/-- Go `storage.DeleteContainerStatsBeforeLimited`: limited delete of stats rows
with `collected_at < before`. -/
def DeleteContainerStatsBeforeLimited (before : Int) (limit : Int)
    (db : List ContainerStat) : Int × List ContainerStat :=
  deleteWhereLimited (fun r => decide (r.collectedAt < before)) (fun r => r.id) limit db

/-- The row filter of `storage.DeleteContainerStatsNonAnomalyInRangeLimited`:
`collected_at >= from AND collected_at < to`, plus `cpu_percent < cpuHigh`
only when `cpuHigh > 0`, plus `mem_percent < memHigh` only when
`memHigh > 0`. -/
def statNonAnomalyInRange (cpuHigh memHigh : ℚ) (tFrom tTo : Int)
    (r : ContainerStat) : Bool :=
  decide (tFrom ≤ r.collectedAt) && decide (r.collectedAt < tTo) &&
  (!decide (0 < cpuHigh) || decide (r.cpuPercent < cpuHigh)) &&
  (!decide (0 < memHigh) || decide (r.memPercent < memHigh))

/-- Go `storage.DeleteContainerStatsNonAnomalyInRangeLimited`: returns `(0, db)`
when `!to.After(from)`, otherwise a limited delete of the non-anomalous rows
in `[from, to)`. -/
def DeleteContainerStatsNonAnomalyInRangeLimited (tFrom tTo : Int)
    (cpuHigh memHigh : ℚ) (limit : Int) (db : List ContainerStat) :
    Int × List ContainerStat :=
  if ¬ tFrom < tTo then (0, db)
  else deleteWhereLimited (statNonAnomalyInRange cpuHigh memHigh tFrom tTo)
    (fun r => r.id) limit db

/-- Go `storage.DeleteContainerLogsBeforeLimited`: limited delete of log rows
with `timestamp < before`. -/
def DeleteContainerLogsBeforeLimited (before : Int) (limit : Int)
    (db : List ContainerLog) : Int × List ContainerLog :=
  deleteWhereLimited (fun r => decide (r.timestamp < before)) (fun r => r.id) limit db

/-- The row filter of `storage.DeleteContainerLogsUnimportantInRangeLimited`:
`timestamp >= from AND timestamp < to`, plus `level NOT IN keepLevels` only
when `keepLevels` is non-empty, plus `source NOT IN keepSources` only when
`keepSources` is non-empty. -/
def logUnimportantInRange (keepLevels keepSources : List String) (tFrom tTo : Int)
    (r : ContainerLog) : Bool :=
  decide (tFrom ≤ r.timestamp) && decide (r.timestamp < tTo) &&
  (keepLevels.isEmpty || !keepLevels.contains r.level) &&
  (keepSources.isEmpty || !keepSources.contains r.source)

/-- Go `storage.DeleteContainerLogsUnimportantInRangeLimited`. -/
def DeleteContainerLogsUnimportantInRangeLimited (tFrom tTo : Int)
    (keepLevels keepSources : List String) (limit : Int) (db : List ContainerLog) :
    Int × List ContainerLog :=
  if ¬ tFrom < tTo then (0, db)
  else deleteWhereLimited (logUnimportantInRange keepLevels keepSources tFrom tTo)
    (fun r => r.id) limit db

/-! Retention configuration (`internal/monitor/config.go`). -/

/-- Go `monitor.StatsRetentionPolicy`. -/
structure StatsRetentionPolicy where
  KeepAll : Int
  KeepAnomalyUntil : Int
  CPUHigh : ℚ
  MemHigh : ℚ
  deriving Repr, DecidableEq

/-- Go `monitor.LogsRetentionPolicy`. -/
structure LogsRetentionPolicy where
  KeepAll : Int
  KeepImportantUntil : Int
  KeepLevels : List String
  KeepSources : List String
  deriving Repr, DecidableEq

/-- Go `monitor.RetentionConfig` (the `Enabled` flag and `OnError` callback play
no role in the claims about `runOnce` and are omitted). -/
structure RetentionConfig where
  Interval : Int
  Workers : Int
  BatchRows : Int
  IdleSleep : Int
  Stats : StatsRetentionPolicy
  Logs : LogsRetentionPolicy
  deriving Repr, DecidableEq

/-- The `c.Stats` part of `RetentionConfig.withDefaults`, applying the same
assignments in the same order as the Go code: default `KeepAll` 12h, default
`KeepAnomalyUntil` 5d, then `KeepAnomalyUntil` raised to `KeepAll` if below
it, and negative thresholds clamped to 0. -/
def StatsRetentionPolicy.withDefaults (p : StatsRetentionPolicy) : StatsRetentionPolicy :=
  let keepAll := if p.KeepAll ≤ 0 then 12 * hour else p.KeepAll
  let keepAnomalyUntil := if p.KeepAnomalyUntil ≤ 0 then 5 * day else p.KeepAnomalyUntil
  let keepAnomalyUntil := if keepAnomalyUntil < keepAll then keepAll else keepAnomalyUntil
  { KeepAll := keepAll
    KeepAnomalyUntil := keepAnomalyUntil
    CPUHigh := if p.CPUHigh < 0 then 0 else p.CPUHigh
    MemHigh := if p.MemHigh < 0 then 0 else p.MemHigh }

/-- The `c.Logs` part of `RetentionConfig.withDefaults`. -/
def LogsRetentionPolicy.withDefaults (p : LogsRetentionPolicy) : LogsRetentionPolicy :=
  let keepAll := if p.KeepAll ≤ 0 then 12 * hour else p.KeepAll
  let keepImportantUntil := if p.KeepImportantUntil ≤ 0 then 5 * day else p.KeepImportantUntil
  let keepImportantUntil :=
    if keepImportantUntil < keepAll then keepAll else keepImportantUntil
  { KeepAll := keepAll
    KeepImportantUntil := keepImportantUntil
    KeepLevels := p.KeepLevels
    KeepSources := p.KeepSources }

/-- Go `monitor.RetentionConfig.withDefaults`: scalar defaults (interval 1h,
2 workers, `BatchRows` defaulted to 500 and capped at 900, non-negative
`IdleSleep`) plus the per-entity policy defaults. -/
def RetentionConfig.withDefaults (c : RetentionConfig) : RetentionConfig :=
  { Interval := if c.Interval ≤ 0 then hour else c.Interval
    Workers := if c.Workers ≤ 0 then 2 else c.Workers
    BatchRows :=
      let b := if c.BatchRows ≤ 0 then 500 else c.BatchRows
      if b > 900 then 900 else b
    IdleSleep := if c.IdleSleep < 0 then 0 else c.IdleSleep
    Stats := c.Stats.withDefaults
    Logs := c.Logs.withDefaults }

/-! The retention enforcer (`internal/monitor/retention.go`).  Each delete
task is a loop calling a limited delete until a call reports zero affected
rows; `fuel` bounds the iteration count so the loop is a total function
(`none` models a run that did not finish within `fuel` batches; the fuel
`db.length + 1` used below always suffices, because every non-final batch
deletes at least one row). -/

/-- The `for { affected, err := delete...Limited(...); if affected == 0 ... }`
loop shape shared by `deleteStatsBefore`, `deleteStatsNonAnomalyInRange`,
`deleteLogsBefore` and `deleteLogsUnimportantInRange`: repeat the limited
delete until it affects zero rows.  (`sleepIdle` between batches does not
change the table and is not modelled.) -/
def deleteWhereLoop (p : α → Bool) (getId : α → Nat) (limit : Int) :
    Nat → List α → Option (List α)
  | 0, _ => none
  | fuel + 1, db =>
    if (deleteWhereLimited p getId limit db).1 = 0 then
      some (deleteWhereLimited p getId limit db).2
    else deleteWhereLoop p getId limit fuel (deleteWhereLimited p getId limit db).2

/-- Go `RetentionCollector.deleteStatsBefore`, run to completion. -/
def deleteStatsBefore (batchRows : Int) (before : Int) (db : List ContainerStat) :
    Option (List ContainerStat) :=
  deleteWhereLoop (fun r => decide (r.collectedAt < before)) (fun r => r.id)
    batchRows (db.length + 1) db

/-- Go `RetentionCollector.deleteStatsNonAnomalyInRange`, run to completion
(with its `!to.After(from)` early return). -/
def deleteStatsNonAnomalyInRange (batchRows : Int) (cpuHigh memHigh : ℚ)
    (tFrom tTo : Int) (db : List ContainerStat) : Option (List ContainerStat) :=
  if ¬ tFrom < tTo then some db
  else deleteWhereLoop (statNonAnomalyInRange cpuHigh memHigh tFrom tTo)
    (fun r => r.id) batchRows (db.length + 1) db

/-- Go `RetentionCollector.deleteLogsBefore`, run to completion. -/
def deleteLogsBefore (batchRows : Int) (before : Int) (db : List ContainerLog) :
    Option (List ContainerLog) :=
  deleteWhereLoop (fun r => decide (r.timestamp < before)) (fun r => r.id)
    batchRows (db.length + 1) db

/-- Go `RetentionCollector.deleteLogsUnimportantInRange`, run to completion. -/
def deleteLogsUnimportantInRange (batchRows : Int)
    (keepLevels keepSources : List String) (tFrom tTo : Int)
    (db : List ContainerLog) : Option (List ContainerLog) :=
  if ¬ tFrom < tTo then some db
  else deleteWhereLoop (logUnimportantInRange keepLevels keepSources tFrom tTo)
    (fun r => r.id) batchRows (db.length + 1) db

/-- Go `RetentionCollector.runOnce`: one enforcement pass at time `now`.  The Go
code distributes the four delete tasks over a small worker pool; the two stats
tasks touch disjoint `collected_at` ranges (`(-inf, now-KeepAnomalyUntil)` and
`[now-KeepAnomalyUntil, now-KeepAll)`), the two log tasks likewise, and stats
and logs are different tables, so running them in the task-list order is a
faithful linearisation of any interleaving. -/
def runOnce (cfg : RetentionConfig) (now : Int) (stats : List ContainerStat)
    (logs : List ContainerLog) : Option (List ContainerStat × List ContainerLog) :=
  match deleteStatsBefore cfg.BatchRows (now - cfg.Stats.KeepAnomalyUntil) stats with
  | none => none
  | some stats1 =>
    match deleteStatsNonAnomalyInRange cfg.BatchRows cfg.Stats.CPUHigh cfg.Stats.MemHigh
        (now - cfg.Stats.KeepAnomalyUntil) (now - cfg.Stats.KeepAll) stats1 with
    | none => none
    | some stats2 =>
      match deleteLogsBefore cfg.BatchRows (now - cfg.Logs.KeepImportantUntil) logs with
      | none => none
      | some logs1 =>
        match deleteLogsUnimportantInRange cfg.BatchRows cfg.Logs.KeepLevels
            cfg.Logs.KeepSources (now - cfg.Logs.KeepImportantUntil)
            (now - cfg.Logs.KeepAll) logs1 with
        | none => none
        | some logs2 => some (stats2, logs2)

/-- The spec-side importance predicate for stats rows (C1): anomalous means
`cpu_percent >= cpu_high` or `mem_percent >= mem_high`, a threshold of 0
disabling that comparison. -/
def importantStat (cpuHigh memHigh : ℚ) (r : ContainerStat) : Bool :=
  (decide (0 < cpuHigh) && decide (cpuHigh ≤ r.cpuPercent)) ||
  (decide (0 < memHigh) && decide (memHigh ≤ r.memPercent))

/-! Generic facts about one limited delete and about the repeat-until-zero
loop; these are the workhorses behind the retention claims. -/

lemma one_le_normalizeDeleteLimit_toNat (v : Int) :
    1 ≤ (normalizeDeleteLimit v).toNat := by
  unfold normalizeDeleteLimit defaultDeleteLimit maxDeleteLimit
  split_ifs <;> omega

lemma nodup_map_inj {f : α → β} {db : List α} (h : (db.map f).Nodup)
    {a b : α} (ha : a ∈ db) (hb : b ∈ db) (hf : f a = f b) : a = b := by
  induction db with
  | nil => cases ha
  | cons x xs ih =>
    rw [List.map_cons, List.nodup_cons] at h
    rcases List.mem_cons.mp ha with ha1 | ha2
    · rcases List.mem_cons.mp hb with hb1 | hb2
      · rw [ha1, hb1]
      · exact absurd (by rw [← ha1, hf]; exact List.mem_map_of_mem f hb2) h.1
    · rcases List.mem_cons.mp hb with hb1 | hb2
      · exact absurd (by rw [← hb1, ← hf]; exact List.mem_map_of_mem f ha2) h.1
      · exact ih h.2 ha2 hb2

lemma mem_dwlIds {p : α → Bool} {getId : α → Nat} {limit : Int} {db : List α}
    {i : Nat} (h : i ∈ dwlIds p getId limit db) :
    ∃ r ∈ db, p r = true ∧ getId r = i := by
  have h' := List.mem_of_mem_take h
  rcases List.mem_map.mp h' with ⟨r, hr, hid⟩
  rcases List.mem_filter.mp hr with ⟨hrdb, hpr⟩
  exact ⟨r, hrdb, hpr, hid⟩

lemma deleteWhereLimited_snd {p : α → Bool} {getId : α → Nat} {limit : Int}
    {db : List α} :
    (deleteWhereLimited p getId limit db).2 =
      db.filter fun r => !(dwlIds p getId limit db).contains (getId r) := by
  unfold deleteWhereLimited
  split
  · next hids =>
    rw [List.isEmpty_iff] at hids
    rw [hids]
    simp
  · rfl

lemma dwlIds_eq_nil_iff {p : α → Bool} {getId : α → Nat} {limit : Int}
    {db : List α} : dwlIds p getId limit db = [] ↔ db.filter p = [] := by
  unfold dwlIds
  rw [List.take_eq_nil_iff]
  constructor
  · intro h
    rcases h with h | h
    · exact absurd h (by have := one_le_normalizeDeleteLimit_toNat limit; omega)
    · rw [List.map_eq_nil_iff] at h
      exact h
  · intro h
    right
    rw [h]
    rfl

lemma deleteWhereLimited_fst_eq_zero_iff {p : α → Bool} {getId : α → Nat}
    {limit : Int} {db : List α} :
    (deleteWhereLimited p getId limit db).1 = 0 ↔ db.filter p = [] := by
  constructor
  · intro h0
    unfold deleteWhereLimited at h0
    split at h0
    · next hids =>
      rw [List.isEmpty_iff] at hids
      exact dwlIds_eq_nil_iff.mp hids
    · next hids =>
      exfalso
      rw [List.isEmpty_iff] at hids
      rcases List.exists_mem_of_ne_nil _ hids with ⟨i, hi⟩
      rcases mem_dwlIds hi with ⟨r, hrdb, _, hid⟩
      have hrmem : r ∈ db.filter fun r => (dwlIds p getId limit db).contains (getId r) := by
        refine List.mem_filter.mpr ⟨hrdb, ?_⟩
        rw [hid]
        exact List.elem_eq_true_of_mem hi
      have hlen : 0 < (db.filter fun r =>
          (dwlIds p getId limit db).contains (getId r)).length :=
        List.length_pos_of_mem hrmem
      omega
  · intro hnil
    unfold deleteWhereLimited
    have hid0 : dwlIds p getId limit db = [] := dwlIds_eq_nil_iff.mpr hnil
    simp [hid0]

lemma dwlIds_not_contains_of_not_p {p : α → Bool} {getId : α → Nat} {limit : Int}
    {db : List α} (hnd : (db.map getId).Nodup) {r : α} (hr : r ∈ db)
    (hpr : p r = false) :
    (dwlIds p getId limit db).contains (getId r) = false := by
  by_contra h
  rw [Bool.not_eq_false] at h
  replace h := List.elem_iff.mp h
  rcases mem_dwlIds h with ⟨r', hr'db, hpr', hid⟩
  have : r' = r := nodup_map_inj hnd hr'db hr hid
  rw [this] at hpr'
  rw [hpr] at hpr'
  cases hpr'

lemma deleteWhereLimited_snd_sublist {p : α → Bool} {getId : α → Nat}
    {limit : Int} {db : List α} :
    (deleteWhereLimited p getId limit db).2.Sublist db := by
  rw [deleteWhereLimited_snd]
  exact List.filter_sublist db

lemma deleteWhereLimited_map_nodup {p : α → Bool} {getId : α → Nat}
    {limit : Int} {db : List α} (hnd : (db.map getId).Nodup) :
    ((deleteWhereLimited p getId limit db).2.map getId).Nodup :=
  (deleteWhereLimited_snd_sublist.map getId).nodup hnd

lemma dwlIds_ne_nil {p : α → Bool} {getId : α → Nat} {limit : Int}
    {db : List α} (hnil : db.filter p ≠ []) :
    dwlIds p getId limit db ≠ [] :=
  fun hc => hnil (dwlIds_eq_nil_iff.mp hc)

lemma deleteWhereLimited_length_lt {p : α → Bool} {getId : α → Nat}
    {limit : Int} {db : List α}
    (h : (deleteWhereLimited p getId limit db).1 ≠ 0) :
    (deleteWhereLimited p getId limit db).2.length < db.length := by
  have hnil : db.filter p ≠ [] := fun hc =>
    h (deleteWhereLimited_fst_eq_zero_iff.mpr hc)
  rcases List.exists_mem_of_ne_nil _ (@dwlIds_ne_nil _ p getId limit db hnil) with ⟨i, hi⟩
  rcases mem_dwlIds hi with ⟨r, hrdb, _, hid⟩
  rw [deleteWhereLimited_snd]
  refine List.length_filter_lt_length_iff_exists.mpr ⟨r, hrdb, ?_⟩
  rw [hid]
  simpa using hi

lemma deleteWhereLoop_no_match {p : α → Bool} {getId : α → Nat} {limit : Int} :
    ∀ {fuel : Nat} {db res : List α},
      deleteWhereLoop p getId limit fuel db = some res →
      (∀ r ∈ res, p r = false) ∧ res.Sublist db := by
  intro fuel
  induction fuel with
  | zero => intro db res h; cases h
  | succ n ih =>
    intro db res h
    unfold deleteWhereLoop at h
    split at h
    · next h0 =>
      have hnil := deleteWhereLimited_fst_eq_zero_iff.mp h0
      have hsnd : (deleteWhereLimited p getId limit db).2 = db := by
        rw [deleteWhereLimited_snd, dwlIds_eq_nil_iff.mpr hnil]
        simp
      rw [hsnd] at h
      cases h
      refine ⟨fun r hr => ?_, List.Sublist.refl _⟩
      have := List.filter_eq_nil_iff.mp hnil r hr
      simpa using this
    · have hrec := ih h
      exact ⟨hrec.1, hrec.2.trans deleteWhereLimited_snd_sublist⟩

lemma deleteWhereLoop_eq_filter {p : α → Bool} {getId : α → Nat} {limit : Int} :
    ∀ {fuel : Nat} {db res : List α}, (db.map getId).Nodup →
      deleteWhereLoop p getId limit fuel db = some res →
      res = db.filter fun r => !p r := by
  intro fuel
  induction fuel with
  | zero => intro db res _ h; cases h
  | succ n ih =>
    intro db res hnd h
    unfold deleteWhereLoop at h
    split at h
    · next h0 =>
      have hnil := deleteWhereLimited_fst_eq_zero_iff.mp h0
      have hsnd : (deleteWhereLimited p getId limit db).2 = db := by
        rw [deleteWhereLimited_snd, dwlIds_eq_nil_iff.mpr hnil]
        simp
      rw [hsnd] at h
      cases h
      symm
      rw [List.filter_eq_self]
      intro a ha
      have := List.filter_eq_nil_iff.mp hnil a ha
      simpa using this
    · have hrec := ih (deleteWhereLimited_map_nodup hnd) h
      rw [hrec, deleteWhereLimited_snd, List.filter_filter]
      refine List.filter_congr fun r hr => ?_
      cases hpr : p r with
      | true => simp [hpr]
      | false =>
        simp only [hpr, Bool.not_false, Bool.and_true]
        exact dwlIds_not_contains_of_not_p hnd hr hpr ▸ rfl

lemma deleteWhereLimited_fst_le {p : α → Bool} {getId : α → Nat} {limit : Int}
    {db : List α} (hnd : (db.map getId).Nodup) :
    (deleteWhereLimited p getId limit db).1 ≤ normalizeDeleteLimit limit := by
  have hpos : 1 ≤ normalizeDeleteLimit limit := by
    unfold normalizeDeleteLimit defaultDeleteLimit maxDeleteLimit
    split_ifs <;> omega
  unfold deleteWhereLimited
  split
  · show (0 : Int) ≤ _
    omega
  · have hsub : ((db.filter fun r =>
        (dwlIds p getId limit db).contains (getId r)).map getId).Subperm
        (dwlIds p getId limit db) := by
      refine List.Nodup.subperm ?_ ?_
      · exact ((List.filter_sublist db).map getId).nodup hnd
      · intro x hx
        rcases List.mem_map.mp hx with ⟨r, hr, hid⟩
        rcases List.mem_filter.mp hr with ⟨_, hcont⟩
        rw [← hid]
        exact List.elem_iff.mp hcont
    have hlen : (db.filter fun r =>
        (dwlIds p getId limit db).contains (getId r)).length ≤
        (dwlIds p getId limit db).length := by
      have := hsub.length_le
      rwa [List.length_map] at this
    have htake : (dwlIds p getId limit db).length ≤
        (normalizeDeleteLimit limit).toNat := List.length_take_le _ _
    show ((db.filter fun r =>
        (dwlIds p getId limit db).contains (getId r)).length : Int) ≤ _
    omega

lemma deleteWhereLoop_mem {p : α → Bool} {getId : α → Nat} {limit : Int}
    {fuel : Nat} {db res : List α} (hnd : (db.map getId).Nodup)
    (h : deleteWhereLoop p getId limit fuel db = some res) {r : α}
    (hr : r ∈ db) (hpr : p r = false) : r ∈ res := by
  rw [deleteWhereLoop_eq_filter hnd h]
  exact List.mem_filter.mpr ⟨hr, by rw [hpr]; rfl⟩

/-- In the tier-1 window, the row filter of the non-anomaly delete is exactly
the negation of the spec's importance predicate. -/
lemma statNonAnomalyInRange_eq_not_important {cpuHigh memHigh : ℚ} {tFrom tTo : Int}
    {r : ContainerStat} (h1 : tFrom ≤ r.collectedAt) (h2 : r.collectedAt < tTo) :
    statNonAnomalyInRange cpuHigh memHigh tFrom tTo r =
      !importantStat cpuHigh memHigh r := by
  unfold statNonAnomalyInRange importantStat
  by_cases hc : 0 < cpuHigh <;> by_cases hm : 0 < memHigh <;>
    by_cases hcc : r.cpuPercent < cpuHigh <;> by_cases hmm : r.memPercent < memHigh <;>
      simp [h1, h2, hc, hm, hcc, hmm, not_lt, not_le, le_of_lt, le_of_not_lt]

/-- After `withDefaults`, the stats tier-2 horizon is at least the tier-0
horizon (`KeepAnomalyUntil >= KeepAll`). -/
lemma statsPolicy_withDefaults_keepAll_le (p : StatsRetentionPolicy) :
    p.withDefaults.KeepAll ≤ p.withDefaults.KeepAnomalyUntil := by
  unfold StatsRetentionPolicy.withDefaults
  dsimp only
  split_ifs <;> omega

/-- After `withDefaults`, the logs tier-2 horizon is at least the tier-0
horizon (`KeepImportantUntil >= KeepAll`). -/
lemma logsPolicy_withDefaults_keepAll_le (p : LogsRetentionPolicy) :
    p.withDefaults.KeepAll ≤ p.withDefaults.KeepImportantUntil := by
  unfold LogsRetentionPolicy.withDefaults
  dsimp only
  split_ifs <;> omega

/-- Destructuring a successful pass into its four completed delete tasks. -/
lemma runOnce_eq {cfg : RetentionConfig} {now : Int} {stats stats' : List ContainerStat}
    {logs logs' : List ContainerLog}
    (h : runOnce cfg now stats logs = some (stats', logs')) :
    ∃ stats1 logs1,
      deleteStatsBefore cfg.BatchRows (now - cfg.Stats.KeepAnomalyUntil) stats =
        some stats1 ∧
      deleteStatsNonAnomalyInRange cfg.BatchRows cfg.Stats.CPUHigh cfg.Stats.MemHigh
        (now - cfg.Stats.KeepAnomalyUntil) (now - cfg.Stats.KeepAll) stats1 =
        some stats' ∧
      deleteLogsBefore cfg.BatchRows (now - cfg.Logs.KeepImportantUntil) logs =
        some logs1 ∧
      deleteLogsUnimportantInRange cfg.BatchRows cfg.Logs.KeepLevels cfg.Logs.KeepSources
        (now - cfg.Logs.KeepImportantUntil) (now - cfg.Logs.KeepAll) logs1 =
        some logs' := by
  unfold runOnce at h
  split at h
  · cases h
  next stats1 h1 =>
    split at h
    · cases h
    next stats2 h2 =>
      split at h
      · cases h
      next logs1 h3 =>
        split at h
        · cases h
        next logs2 h4 =>
          rcases h with ⟨⟩
          exact ⟨stats1, logs1, h1, h2, h3, h4⟩

/-! Scenario data for the retention witnesses: `keep_all = 3d`,
`keep_tier2_until = 7d`, `cpu_high = 80` (`mem_high` 0, i.e. disabled), one
pass at `now = 10d` over a 5-day-old anomalous sample, a 5-day-old quiet
sample, an 8-day-old anomalous sample, and (for the tier-0 witness) a
1-day-old quiet sample. -/

def scenarioCfg : RetentionConfig :=
  { Interval := hour
    Workers := 2
    BatchRows := 500
    IdleSleep := 0
    Stats := { KeepAll := 3 * day, KeepAnomalyUntil := 7 * day, CPUHigh := 80, MemHigh := 0 }
    Logs := { KeepAll := 12 * hour, KeepImportantUntil := 5 * day,
              KeepLevels := ["ERROR", "WARN"], KeepSources := ["stderr"] } }

def scenarioHot : ContainerStat :=
  { id := 1, containerID := "c1", containerName := "hot", cpuPercent := 99,
    memPercent := 0, collectedAt := 5 * day }

def scenarioQuiet : ContainerStat :=
  { id := 2, containerID := "c2", containerName := "quiet", cpuPercent := 10,
    memPercent := 0, collectedAt := 5 * day }

def scenarioAncient : ContainerStat :=
  { id := 3, containerID := "c3", containerName := "ancient", cpuPercent := 99,
    memPercent := 0, collectedAt := 2 * day }

def scenarioYoung : ContainerStat :=
  { id := 4, containerID := "c4", containerName := "young", cpuPercent := 10,
    memPercent := 0, collectedAt := 9 * day }

def scenarioStats : List ContainerStat := [scenarioHot, scenarioQuiet, scenarioAncient]

def scenarioStats2 : List ContainerStat :=
  [scenarioHot, scenarioQuiet, scenarioAncient, scenarioYoung]

/-- C1: in one Retention Enforcer pass at time `now`, a stats row whose
`collected_at` lies in `[now - keep_tier2_until, now - keep_all)` survives
the pass if and only if it satisfies the importance predicate
(`cpu_percent >= cpu_high` OR `mem_percent >= mem_high`, a threshold of 0
disabling that comparison); equivalently, the tier-1 task deletes exactly the
rows of that window failing the predicate.  Tier-2 only touches rows with
`collected_at < now - keep_tier2_until`, so inside the window the tier-1 task
is the only deleter. -/
theorem retention_tier1_survive_iff_important
    (cfg : RetentionConfig) (now : Int) (stats : List ContainerStat)
    (logs : List ContainerLog) (stats' : List ContainerStat)
    (logs' : List ContainerLog) (r : ContainerStat)
    (hnd : (stats.map fun s => s.id).Nodup)
    (hrun : runOnce cfg now stats logs = some (stats', logs'))
    (hmem : r ∈ stats)
    (hlo : now - cfg.Stats.KeepAnomalyUntil ≤ r.collectedAt)
    (hhi : r.collectedAt < now - cfg.Stats.KeepAll) :
    r ∈ stats' ↔ importantStat cfg.Stats.CPUHigh cfg.Stats.MemHigh r = true := by
  rcases runOnce_eq hrun with ⟨stats1, logs1, h1, h2, _, _⟩
  unfold deleteStatsBefore at h1
  have hstats1 : stats1 = stats.filter fun s =>
      !decide (s.collectedAt < now - cfg.Stats.KeepAnomalyUntil) :=
    deleteWhereLoop_eq_filter hnd h1
  have hnd1 : (stats1.map fun s => s.id).Nodup := by
    rw [hstats1]
    exact ((List.filter_sublist stats).map _).nodup hnd
  have hmem1 : r ∈ stats1 := by
    rw [hstats1]
    refine List.mem_filter.mpr ⟨hmem, ?_⟩
    simpa using not_lt.mpr hlo
  unfold deleteStatsNonAnomalyInRange at h2
  rw [if_neg (by omega :
    ¬¬now - cfg.Stats.KeepAnomalyUntil < now - cfg.Stats.KeepAll)] at h2
  have hstats' : stats' = stats1.filter fun s =>
      !statNonAnomalyInRange cfg.Stats.CPUHigh cfg.Stats.MemHigh
        (now - cfg.Stats.KeepAnomalyUntil) (now - cfg.Stats.KeepAll) s :=
    deleteWhereLoop_eq_filter hnd1 h2
  rw [hstats', List.mem_filter,
    statNonAnomalyInRange_eq_not_important hlo hhi]
  constructor
  · rintro ⟨_, hb⟩
    simpa using hb
  · intro himp
    exact ⟨hmem1, by rw [himp]; rfl⟩

/-- Witness for C1: the spec's scenario.  With `keep_all = 3d`,
`keep_tier2_until = 7d`, `cpu_high = 80`, a pass at `now = 10d` leaves exactly
the 5-day-old `cpu = 99` sample: the 5-day-old `cpu = 10` sample is deleted by
tier 1 and the 8-day-old `cpu = 99` sample by tier 2; the survival of the hot
sample is obtained through the tier-1 theorem. -/
theorem retention_tier1_survive_iff_important_witness :
    (scenarioStats.map fun s => s.id).Nodup ∧
    runOnce scenarioCfg (10 * day) scenarioStats [] = some ([scenarioHot], []) ∧
    scenarioQuiet ∉ [scenarioHot] ∧ scenarioAncient ∉ [scenarioHot] ∧
    (scenarioHot ∈ [scenarioHot] ↔
      importantStat scenarioCfg.Stats.CPUHigh scenarioCfg.Stats.MemHigh scenarioHot = true) :=
  ⟨by decide, by decide, by decide, by decide,
    retention_tier1_survive_iff_important scenarioCfg (10 * day) scenarioStats []
      [scenarioHot] [] scenarioHot (by decide) (by decide) (by decide)
      (by decide) (by decide)⟩

/-- C2: under the normalized configuration (`withDefaults`, which `Run`
applies before any pass and which guarantees the tier-2 horizon is at least
`KeepAll`), no stats row and no log row of age strictly less than the
respective `keep_all` is deleted by a pass, for every configuration and every
input table. -/
theorem retention_preserves_keep_all_window
    (cfg : RetentionConfig) (now : Int) (stats : List ContainerStat)
    (logs : List ContainerLog) (stats' : List ContainerStat)
    (logs' : List ContainerLog)
    (hndS : (stats.map fun s => s.id).Nodup)
    (hndL : (logs.map fun l => l.id).Nodup)
    (hrun : runOnce cfg.withDefaults now stats logs = some (stats', logs')) :
    (∀ r ∈ stats, now - r.collectedAt < cfg.withDefaults.Stats.KeepAll → r ∈ stats') ∧
    (∀ l ∈ logs, now - l.timestamp < cfg.withDefaults.Logs.KeepAll → l ∈ logs') := by
  rcases runOnce_eq hrun with ⟨stats1, logs1, h1, h2, h3, h4⟩
  have hS2 := statsPolicy_withDefaults_keepAll_le cfg.Stats
  have hL2 := logsPolicy_withDefaults_keepAll_le cfg.Logs
  have hSdef : cfg.withDefaults.Stats = cfg.Stats.withDefaults := rfl
  have hLdef : cfg.withDefaults.Logs = cfg.Logs.withDefaults := rfl
  constructor
  · intro r hr hage
    unfold deleteStatsBefore at h1
    have hmem1 : r ∈ stats1 := by
      refine deleteWhereLoop_mem hndS h1 hr ?_
      rw [decide_eq_false_iff_not]
      rw [hSdef] at hage ⊢
      omega
    have hnd1 : (stats1.map fun s => s.id).Nodup := by
      rw [deleteWhereLoop_eq_filter hndS h1]
      exact ((List.filter_sublist stats).map _).nodup hndS
    unfold deleteStatsNonAnomalyInRange at h2
    split at h2
    · rcases h2 with ⟨⟩
      exact hmem1
    · refine deleteWhereLoop_mem hnd1 h2 hmem1 ?_
      unfold statNonAnomalyInRange
      have : decide (r.collectedAt < now - cfg.withDefaults.Stats.KeepAll) = false := by
        rw [decide_eq_false_iff_not]
        omega
      rw [this]
      simp
  · intro l hl hage
    unfold deleteLogsBefore at h3
    have hmem1 : l ∈ logs1 := by
      refine deleteWhereLoop_mem hndL h3 hl ?_
      rw [decide_eq_false_iff_not]
      rw [hLdef] at hage ⊢
      omega
    have hnd1 : (logs1.map fun s => s.id).Nodup := by
      rw [deleteWhereLoop_eq_filter hndL h3]
      exact ((List.filter_sublist logs).map _).nodup hndL
    unfold deleteLogsUnimportantInRange at h4
    split at h4
    · rcases h4 with ⟨⟩
      exact hmem1
    · refine deleteWhereLoop_mem hnd1 h4 hmem1 ?_
      unfold logUnimportantInRange
      have : decide (l.timestamp < now - cfg.withDefaults.Logs.KeepAll) = false := by
        rw [decide_eq_false_iff_not]
        omega
      rw [this]
      simp

/-- Witness for C2: in the scenario table extended with a 1-day-old sample,
that sample (and every other row younger than `keep_all = 3d`) survives the
pass; here `scenarioCfg` is a fixed point of `withDefaults`. -/
theorem retention_preserves_keep_all_window_witness :
    (scenarioStats2.map fun s => s.id).Nodup ∧
    runOnce scenarioCfg.withDefaults (10 * day) scenarioStats2 [] =
      some ([scenarioHot, scenarioYoung], []) ∧
    scenarioYoung ∈ [scenarioHot, scenarioYoung] :=
  ⟨by decide, by decide,
    (retention_preserves_keep_all_window scenarioCfg (10 * day) scenarioStats2 []
        [scenarioHot, scenarioYoung] [] (by decide) (by decide) (by decide)).1
      scenarioYoung (by decide) (by decide)⟩

/-- C3: a pass that completes without error leaves no stats row older than
the stats `keep_tier2_until` horizon and no log row older than the logs
horizon, regardless of importance; each underlying limited delete removes at
most `normalizeDeleteLimit batch_rows` rows, where a non-positive requested
limit is normalized to 500, a limit over 900 is capped at 900, and a limit in
`[1, 900]` is used as is; the loops repeat until a delete reports zero
affected rows. -/
theorem retention_tier2_purges_all
    (cfg : RetentionConfig) (now : Int) (stats : List ContainerStat)
    (logs : List ContainerLog) (stats' : List ContainerStat)
    (logs' : List ContainerLog)
    (hrun : runOnce cfg now stats logs = some (stats', logs')) :
    (∀ r ∈ stats', ¬r.collectedAt < now - cfg.Stats.KeepAnomalyUntil) ∧
    (∀ l ∈ logs', ¬l.timestamp < now - cfg.Logs.KeepImportantUntil) ∧
    (∀ v : Int, (v ≤ 0 → normalizeDeleteLimit v = 500) ∧
      (900 < v → normalizeDeleteLimit v = 900) ∧
      (0 < v → v ≤ 900 → normalizeDeleteLimit v = v)) ∧
    (∀ (before limit : Int) (db : List ContainerStat),
      (db.map fun s => s.id).Nodup →
      (DeleteContainerStatsBeforeLimited before limit db).1 ≤ normalizeDeleteLimit limit) ∧
    (∀ (before limit : Int) (db : List ContainerLog),
      (db.map fun l => l.id).Nodup →
      (DeleteContainerLogsBeforeLimited before limit db).1 ≤ normalizeDeleteLimit limit) := by
  rcases runOnce_eq hrun with ⟨stats1, logs1, h1, h2, h3, h4⟩
  refine ⟨?_, ?_, ?_, ?_, ?_⟩
  · intro r hr
    unfold deleteStatsBefore at h1
    have hloop := deleteWhereLoop_no_match h1
    have hmem1 : r ∈ stats1 := by
      unfold deleteStatsNonAnomalyInRange at h2
      split at h2
      · rcases h2 with ⟨⟩
        exact hr
      · exact (deleteWhereLoop_no_match h2).2.mem hr
    have := hloop.1 r hmem1
    simpa using this
  · intro l hl
    unfold deleteLogsBefore at h3
    have hloop := deleteWhereLoop_no_match h3
    have hmem1 : l ∈ logs1 := by
      unfold deleteLogsUnimportantInRange at h4
      split at h4
      · rcases h4 with ⟨⟩
        exact hl
      · exact (deleteWhereLoop_no_match h4).2.mem hl
    have := hloop.1 l hmem1
    simpa using this
  · intro v
    unfold normalizeDeleteLimit defaultDeleteLimit maxDeleteLimit
    refine ⟨fun h => ?_, fun h => ?_, fun h1' h2' => ?_⟩ <;> split_ifs <;> omega
  · intro before limit db hnd
    exact deleteWhereLimited_fst_le hnd
  · intro before limit db hnd
    exact deleteWhereLimited_fst_le hnd

/-- Witness for C3: the scenario pass leaves no stats row older than 7 days
(the tier-2 horizon), in particular the 8-day-old anomalous sample is gone. -/
theorem retention_tier2_purges_all_witness :
    runOnce scenarioCfg (10 * day) scenarioStats [] = some ([scenarioHot], []) ∧
    (∀ r ∈ [scenarioHot],
      ¬r.collectedAt < 10 * day - scenarioCfg.Stats.KeepAnomalyUntil) :=
  ⟨by decide,
    (retention_tier2_purges_all scenarioCfg (10 * day) scenarioStats []
      [scenarioHot] [] (by decide)).1⟩

/-! The range queries of `internal/storage` (`QueryContainerStats`,
`QueryContainerLogs`).  `ORDER BY` is modelled by a structural insertion
sort (`orderBy`), a stable sort with the same contents and length as the
input; the claims only depend on the length and the limit. -/

def insertSorted (le : α → α → Bool) (x : α) : List α → List α
  | [] => [x]
  | y :: ys => if le x y then x :: y :: ys else y :: insertSorted le x ys

/-- Sort model for the SQL `ORDER BY` clause. -/
def orderBy (le : α → α → Bool) (l : List α) : List α :=
  l.foldr (insertSorted le) []

lemma length_insertSorted (le : α → α → Bool) (x : α) (l : List α) :
    (insertSorted le x l).length = l.length + 1 := by
  induction l with
  | nil => rfl
  | cons y ys ih =>
    unfold insertSorted
    split
    · rfl
    · simpa [List.length_cons] using ih

lemma length_orderBy (le : α → α → Bool) (l : List α) :
    (orderBy le l).length = l.length := by
  induction l with
  | nil => rfl
  | cons y ys ih =>
    unfold orderBy at ih ⊢
    rw [List.foldr_cons, length_insertSorted, ih]
    rfl

/-- Go `storage.StatsQuery`: all filters optional (zero value means "no
filter"), `From/To` an inclusive `collected_at` range, `Limit <= 0` meaning
the default. -/
structure StatsQuery where
  ContainerID : String
  ContainerName : String
  From : Option Int
  To : Option Int
  Limit : Int
  Desc : Bool
  deriving Repr, DecidableEq

/-- The WHERE clause assembled by `storage.QueryContainerStats`. -/
def statsQueryPred (q : StatsQuery) (r : ContainerStat) : Bool :=
  (q.ContainerID == "" || r.containerID == q.ContainerID) &&
  (q.ContainerName == "" || r.containerName == q.ContainerName) &&
  (match q.From with | none => true | some t => decide (t ≤ r.collectedAt)) &&
  (match q.To with | none => true | some t => decide (r.collectedAt ≤ t))

/-- Go `storage.QueryContainerStats`: filter, order by `collected_at`
(descending when `Desc`), and take at most `normalizeLimit q.Limit` rows. -/
def QueryContainerStats (q : StatsQuery) (db : List ContainerStat) :
    List ContainerStat :=
  (orderBy
    (fun a b => if q.Desc then decide (b.collectedAt ≤ a.collectedAt)
      else decide (a.collectedAt ≤ b.collectedAt))
    (db.filter (statsQueryPred q))).take (normalizeLimit q.Limit).toNat

/-- Go `storage.LogQuery`. -/
structure LogQuery where
  ContainerID : String
  ContainerName : String
  From : Option Int
  To : Option Int
  Level : String
  Source : String
  Contains : String
  Limit : Int
  Desc : Bool
  deriving Repr, DecidableEq

/-- The WHERE clause assembled by `storage.QueryContainerLogs`
(`message LIKE '%Contains%'` is substring containment). -/
def logQueryPred (q : LogQuery) (r : ContainerLog) : Bool :=
  (q.ContainerID == "" || r.containerID == q.ContainerID) &&
  (q.ContainerName == "" || r.containerName == q.ContainerName) &&
  (q.Source == "" || r.source == q.Source) &&
  (q.Level == "" || r.level == q.Level) &&
  (match q.From with | none => true | some t => decide (t ≤ r.timestamp)) &&
  (match q.To with | none => true | some t => decide (r.timestamp ≤ t)) &&
  (q.Contains == "" || decide (q.Contains.toList <:+: r.message.toList))

/-- Go `storage.QueryContainerLogs`: filter, order by `timestamp`, and take at
most `normalizeLimit q.Limit` rows. -/
def QueryContainerLogs (q : LogQuery) (db : List ContainerLog) :
    List ContainerLog :=
  (orderBy
    (fun a b => if q.Desc then decide (b.timestamp ≤ a.timestamp)
      else decide (a.timestamp ≤ b.timestamp))
    (db.filter (logQueryPred q))).take (normalizeLimit q.Limit).toNat

/-- C10: both queries silently normalize the requested row limit — a request
`<= 0` becomes 200, a request over 5000 is capped at 5000, a request in
`[1, 5000]` is used as is — so a result never holds more than 5000 rows, and
never more rows than a positive request asked for. -/
theorem query_limit_is_normalized (q : StatsQuery) (ql : LogQuery)
    (db : List ContainerStat) (dbl : List ContainerLog) :
    ((QueryContainerStats q db).length : Int) ≤ 5000 ∧
    (0 < q.Limit → ((QueryContainerStats q db).length : Int) ≤ q.Limit) ∧
    ((QueryContainerLogs ql dbl).length : Int) ≤ 5000 ∧
    (0 < ql.Limit → ((QueryContainerLogs ql dbl).length : Int) ≤ ql.Limit) ∧
    (∀ v : Int, (v ≤ 0 → normalizeLimit v = 200) ∧
      (5000 < v → normalizeLimit v = 5000) ∧
      (0 < v → v ≤ 5000 → normalizeLimit v = v)) := by
  have hn : ∀ v : Int, 0 ≤ normalizeLimit v ∧ normalizeLimit v ≤ 5000 ∧
      (0 < v → normalizeLimit v ≤ v) := by
    intro v
    unfold normalizeLimit defaultLimit maxLimit
    split_ifs <;> omega
  have hs : (QueryContainerStats q db).length ≤ (normalizeLimit q.Limit).toNat := by
    unfold QueryContainerStats
    exact List.length_take_le _ _
  have hl : (QueryContainerLogs ql dbl).length ≤ (normalizeLimit ql.Limit).toNat := by
    unfold QueryContainerLogs
    exact List.length_take_le _ _
  have h1 := hn q.Limit
  have h2 := hn ql.Limit
  refine ⟨by omega, fun h => ?_, by omega, fun h => ?_, fun v => ?_⟩
  · have := h1.2.2 h
    omega
  · have := h2.2.2 h
    omega
  · unfold normalizeLimit defaultLimit maxLimit
    refine ⟨fun h => ?_, fun h => ?_, fun ha hb => ?_⟩ <;> split_ifs <;> omega

/-- Witness for C10: a query with `Limit = 1` over a two-row table returns at
most one row (here exactly the requested bound via the theorem). -/
theorem query_limit_is_normalized_witness :
    (0 : Int) < 1 ∧
    ((QueryContainerStats
        { ContainerID := "", ContainerName := "", From := none, To := none,
          Limit := 1, Desc := false }
        [scenarioHot, scenarioQuiet]).length : Int) ≤ 1 :=
  ⟨by decide,
    (query_limit_is_normalized
        { ContainerID := "", ContainerName := "", From := none, To := none,
          Limit := 1, Desc := false }
        { ContainerID := "", ContainerName := "", From := none, To := none,
          Level := "", Source := "", Contains := "", Limit := 1, Desc := false }
        [scenarioHot, scenarioQuiet] []).2.1 (by decide)⟩

/-! The CPU-percent formula (`internal/monitor/stats.go`,
`calculateCPUPercent`).  The Go code computes over `float64` values converted
from the snapshot's integer counters; the model uses exact rationals, which
the claim's formula is about. -/

/-- The fields of `container.StatsResponse` that `calculateCPUPercent`
reads. -/
structure StatsResponse where
  cpuTotalUsage : ℚ
  preCpuTotalUsage : ℚ
  systemUsage : ℚ
  preSystemUsage : ℚ
  onlineCPUs : ℚ
  percpuUsage : List ℚ
  deriving Repr, DecidableEq

/-- Go `monitor.calculateCPUPercent` (the Go locals `cpuDelta`, `systemDelta`
and `onlineCPUs` are inlined). -/
def calculateCPUPercent (stats : StatsResponse) : ℚ :=
  if stats.cpuTotalUsage - stats.preCpuTotalUsage ≤ 0 ∨
      stats.systemUsage - stats.preSystemUsage ≤ 0 then 0
  else
    (stats.cpuTotalUsage - stats.preCpuTotalUsage) /
      (stats.systemUsage - stats.preSystemUsage) *
      (if stats.onlineCPUs ≤ 0 then
        if 0 < stats.percpuUsage.length then (stats.percpuUsage.length : ℚ) else 1
      else stats.onlineCPUs) * 100

/-- C6: `cpu_percent` is `(Δcpu / Δsystem) * n * 100` with both deltas
positive, and 0 whenever either delta is non-positive; `n` is the reported
online-CPU count when positive, else the length of the per-core usage array
when non-empty, else 1. -/
theorem calculateCPUPercent_spec (stats : StatsResponse) :
    (0 < stats.cpuTotalUsage - stats.preCpuTotalUsage →
     0 < stats.systemUsage - stats.preSystemUsage →
     calculateCPUPercent stats =
       (stats.cpuTotalUsage - stats.preCpuTotalUsage) /
         (stats.systemUsage - stats.preSystemUsage) *
         (if 0 < stats.onlineCPUs then stats.onlineCPUs
          else if stats.percpuUsage ≠ [] then (stats.percpuUsage.length : ℚ)
          else 1) * 100) ∧
    (stats.cpuTotalUsage - stats.preCpuTotalUsage ≤ 0 ∨
     stats.systemUsage - stats.preSystemUsage ≤ 0 →
     calculateCPUPercent stats = 0) := by
  constructor
  · intro hc hs
    unfold calculateCPUPercent
    rw [if_neg (by push_neg; exact ⟨hc, hs⟩)]
    rcases le_or_lt stats.onlineCPUs 0 with hon | hon
    · rw [if_pos hon, if_neg (not_lt.mpr hon)]
      rcases eq_or_ne stats.percpuUsage [] with hp | hp
      · rw [if_neg (by simp [hp]), if_neg (by simp [hp])]
      · rw [if_pos (List.length_pos.mpr hp), if_pos hp]
    · rw [if_neg (not_le.mpr hon), if_pos hon]
  · intro h
    unfold calculateCPUPercent
    rw [if_pos h]

/-- Witness for C6: a snapshot with `Δcpu = 50`, `Δsystem = 200` and 4 online
CPUs yields `50 / 200 * 4 * 100 = 100`. -/
theorem calculateCPUPercent_spec_witness :
    (0 : ℚ) < 150 - 100 ∧ (0 : ℚ) < 400 - 200 ∧
    calculateCPUPercent
      { cpuTotalUsage := 150, preCpuTotalUsage := 100, systemUsage := 400,
        preSystemUsage := 200, onlineCPUs := 4, percpuUsage := [] } =
      (150 - 100 : ℚ) / (400 - 200) *
        (if (0 : ℚ) < 4 then (4 : ℚ)
         else if ([] : List ℚ) ≠ [] then ((0 : Nat) : ℚ) else 1) * 100 :=
  ⟨by norm_num, by norm_num,
    (calculateCPUPercent_spec
      { cpuTotalUsage := 150, preCpuTotalUsage := 100, systemUsage := 400,
        preSystemUsage := 200, onlineCPUs := 4, percpuUsage := [] }).1
      (by norm_num) (by norm_num)⟩

/-! The Log Collector's tailer registry (`internal/monitor/logs.go`,
`startTailer` / `stopTailer` / `stopAllTailers`).  The mutex-guarded Go map
`tailers : map[string]context.CancelFunc` is modelled as the list of its keys
(the cancel functions play no role in the registry invariants); map insertion
is cons, map deletion is erase.  All three operations run under the mutex, so
their sequential composition is the exact registry behaviour. -/

inductive StartOutcome
  | started
  | duplicateNoop
  | limitRejected
  deriving Repr, DecidableEq

/-- Go `LogCollector.startTailer` at the registry level: a duplicate id is a
no-op, a start at capacity (`TailerLimit > 0 && len(tailers) >= TailerLimit`)
leaves the registry unchanged and reports `limitRejected` (the Go code invokes
`OnError` there), otherwise the id is registered. -/
def startTailer (tailerLimit : Int) (tailers : List String)
    (containerID : String) : List String × StartOutcome :=
  if tailers.contains containerID then (tailers, .duplicateNoop)
  else if 0 < tailerLimit ∧ tailerLimit ≤ (tailers.length : Int) then
    (tailers, .limitRejected)
  else (containerID :: tailers, .started)

/-- Go `LogCollector.stopTailer` at the registry level: remove the id (and cancel
the tailer) if present. -/
def stopTailer (tailers : List String) (containerID : String) : List String :=
  tailers.erase containerID

/-- Go `LogCollector.stopAllTailers` at the registry level: the registry is
replaced by a fresh empty map. -/
def stopAllTailers (_tailers : List String) : List String := []

/-- C7: after every registry operation (1) the registry still holds at most
one entry per workload id — in particular a duplicate start request changes
nothing — and (2) under a positive `tailer_limit` the registry size never
exceeds the limit: a start request at capacity adds no entry and reports the
rejection (error callback) instead of queueing or blocking. -/
theorem tailer_registry_invariants (tailerLimit : Int) (tailers : List String)
    (containerID : String) (hnd : tailers.Nodup)
    (hpos : 0 < tailerLimit) (hcap : (tailers.length : Int) ≤ tailerLimit) :
    (startTailer tailerLimit tailers containerID).1.Nodup ∧
    (stopTailer tailers containerID).Nodup ∧
    (stopAllTailers tailers).Nodup ∧
    (tailers.contains containerID = true →
      startTailer tailerLimit tailers containerID = (tailers, .duplicateNoop)) ∧
    ((startTailer tailerLimit tailers containerID).1.length : Int) ≤ tailerLimit ∧
    ((stopTailer tailers containerID).length : Int) ≤ tailerLimit ∧
    ((tailers.length : Int) = tailerLimit → tailers.contains containerID = false →
      startTailer tailerLimit tailers containerID = (tailers, .limitRejected)) := by
  have herase : (stopTailer tailers containerID).length ≤ tailers.length := by
    unfold stopTailer
    exact List.length_erase_le _ _
  refine ⟨?_, hnd.erase _, List.nodup_nil, fun hdup => ?_, ?_, by omega,
    fun hfull hnew => ?_⟩
  · unfold startTailer
    split
    · exact hnd
    · split
      · exact hnd
      · next hdup _ =>
        refine List.nodup_cons.mpr ⟨?_, hnd⟩
        intro hmem
        exact hdup (List.elem_eq_true_of_mem hmem)
  · unfold startTailer
    rw [if_pos hdup]
  · unfold startTailer
    split
    · exact hcap
    · split
      · exact hcap
      · next _ hle =>
        push_neg at hle
        have := hle hpos
        simp only [List.length_cons]
        push_cast
        omega
  · unfold startTailer
    rw [if_neg (by rw [hnew]; exact Bool.false_ne_true), if_pos ⟨hpos, by omega⟩]

/-- Witness for C7: a registry at its capacity of 2 rejects a start request
for a fresh id and stays unchanged. -/
theorem tailer_registry_invariants_witness :
    (["a", "b"] : List String).Nodup ∧ (0 : Int) < 2 ∧
    startTailer 2 ["a", "b"] "c" = (["a", "b"], .limitRejected) :=
  ⟨by decide, by decide,
    (tailer_registry_invariants 2 ["a", "b"] "c" (by decide) (by decide)
      (by decide)).2.2.2.2.2.2 (by decide) (by decide)⟩

/-! The lossy bounded record channel of the Log Collector
(`internal/monitor/logs.go`, `scanLines`).  `logCh` is a Go channel with
capacity `QueueSize`, modelled as a FIFO list; the non-blocking
`select { case logCh <- rec: default: OnError(...) }` push appends when there
is room and otherwise drops the record and reports it.  A record is modelled
by its raw scanned line: the record construction (timestamp split, level
inference) does not interact with the queueing behaviour the claim is about.
`scanLines` returns the final queue, the number of dropped records (error
callback invocations for "log queue full") and whether the scanner stopped
with an error (a line over `MaxLineBytes`, the only error source left in the
model). -/

/-- The non-blocking push of one record onto the bounded channel; `true`
means the record was dropped (and the error callback invoked). -/
def pushLogRecord (queueSize : Nat) (logCh : List α) (rec : α) :
    List α × Bool :=
  if logCh.length < queueSize then (logCh ++ [rec], false) else (logCh, true)

/-- Go `LogCollector.scanLines` over the sequence of scanned lines. -/
def scanLines (queueSize maxLineBytes : Nat) :
    List String → List String → List String × Nat × Bool
  | [], logCh => (logCh, 0, false)
  | line :: rest, logCh =>
    if maxLineBytes < line.length then (logCh, 0, true)
    else
      ((scanLines queueSize maxLineBytes rest (pushLogRecord queueSize logCh line).1).1,
       (if (pushLogRecord queueSize logCh line).2 then 1 else 0) +
         (scanLines queueSize maxLineBytes rest (pushLogRecord queueSize logCh line).1).2.1,
       (scanLines queueSize maxLineBytes rest (pushLogRecord queueSize logCh line).1).2.2)

lemma pushLogRecord_length_le {queueSize : Nat} {logCh : List α} {rec : α}
    (h : logCh.length ≤ queueSize) :
    (pushLogRecord queueSize logCh rec).1.length ≤ queueSize := by
  unfold pushLogRecord
  split
  · next hroom =>
    simp only [List.length_append, List.length_singleton]
    omega
  · exact h

/-- C8: a record produced for a scanned line is dropped (with the error
callback invoked) when the bounded channel is full — the push returns
immediately with the queue unchanged, never blocking the scanner — the queue
never grows beyond its capacity, and the scanner's error result depends only
on the lines (an over-long line), never on queue fullness: a full queue is
never a fatal error. -/
theorem scan_lines_full_queue_drops (queueSize maxLineBytes : Nat)
    (lines : List String) (logCh : List String) (rec : String) :
    (queueSize ≤ logCh.length →
      pushLogRecord queueSize logCh rec = (logCh, true)) ∧
    (logCh.length ≤ queueSize →
      (scanLines queueSize maxLineBytes lines logCh).1.length ≤ queueSize) ∧
    ((scanLines queueSize maxLineBytes lines logCh).2.2 =
      lines.any fun l => decide (maxLineBytes < l.length)) := by
  refine ⟨fun hfull => ?_, ?_, ?_⟩
  · unfold pushLogRecord
    rw [if_neg (not_lt.mpr hfull)]
  · induction lines generalizing logCh with
    | nil => intro h; exact h
    | cons line rest ih =>
      intro h
      unfold scanLines
      split
      · exact h
      · exact ih _ (pushLogRecord_length_le h)
  · induction lines generalizing logCh with
    | nil => rfl
    | cons line rest ih =>
      unfold scanLines
      split
      · next hlong =>
        simp [hlong]
      · next hshort =>
        have := ih (pushLogRecord queueSize logCh line).1
        simpa [hshort] using this

/-- Witness for C8: pushing onto a channel of capacity 1 already holding one
record drops the new record, reports it, and leaves the queue unchanged. -/
theorem scan_lines_full_queue_drops_witness :
    (1 : Nat) ≤ (["r0"] : List String).length ∧
    pushLogRecord 1 ["r0"] "r1" = (["r0"], true) :=
  ⟨by decide,
    (scan_lines_full_queue_drops 1 1024 [] ["r0"] "r1").1 (by decide)⟩

/-! The size-or-time batching writer (`internal/monitor/stats.go`,
`StatsCollector.writeLoop`; `LogCollector.writeLoop` is the same loop over
log records).  The loop is a `select` over three events: a sample arriving on
the result channel (append to the buffer, flush when `len(buf) >= BatchSize`),
the flush ticker firing (flush), the channel closing (final flush, then
return), and the context being cancelled (`_ = flush(); return ctx.Err()`).

The model runs the loop under an explicit schedule: the list of branches the
`select` resolves to, one per iteration.  Go's `select` picks uniformly among
ready branches, so every schedule in which each chosen branch is enabled
(`recv` needs a non-empty channel, `chClose` needs the drained channel to be
closed, `ctxDone` needs the context cancelled) is a possible execution.
`inserted` records the batches passed to `InsertContainerStats`; `flushBuf`
is the Go `flush` closure, which does nothing on an empty buffer.  `none`
marks an invalid or unfinished schedule. -/

inductive WriterChoice
  | recv
  | tick
  | chClose
  | ctxDone
  deriving Repr, DecidableEq

structure WriterState (α : Type) where
  buf : List α
  chan : List α
  inserted : List (List α)
  deriving Repr, DecidableEq

/-- The `flush` closure of `writeLoop`: insert the buffered batch (if any)
and reset the buffer. -/
def flushBuf (s : WriterState α) : WriterState α :=
  if s.buf.isEmpty then s
  else { buf := [], chan := s.chan, inserted := s.inserted ++ [s.buf] }

/-- One `case stat, ok := <-results` iteration with `ok = true`: append the
sample, flush when the buffer has reached `BatchSize`. -/
def writerRecvStep (batchSize : Nat) (s : WriterState α) (x : α)
    (rest : List α) : WriterState α :=
  if batchSize ≤ s.buf.length + 1 then
    flushBuf { buf := s.buf ++ [x], chan := rest, inserted := s.inserted }
  else { buf := s.buf ++ [x], chan := rest, inserted := s.inserted }

/-- Go `writeLoop` under a schedule.  `cancelled` states whether `ctx.Done()` is
ready; a terminating choice must end the schedule. -/
def writeLoopExec (batchSize : Nat) (cancelled : Bool) :
    List WriterChoice → WriterState α → Option (WriterState α)
  | [], _ => none
  | c :: cs, s =>
    match c with
    | .recv =>
      match s.chan with
      | [] => none
      | x :: rest => writeLoopExec batchSize cancelled cs (writerRecvStep batchSize s x rest)
    | .tick => writeLoopExec batchSize cancelled cs (flushBuf s)
    | .chClose =>
      if s.chan.isEmpty && cs.isEmpty then some (flushBuf s) else none
    | .ctxDone =>
      if cancelled && cs.isEmpty then some (flushBuf s) else none

/-- The schedule of the 250-sample scenario: 250 samples arrive (faster than
the flush interval, so the ticker never fires between them), then the result
channel closes. -/
def scenarioSchedule : List WriterChoice :=
  List.replicate 250 WriterChoice.recv ++ [WriterChoice.chClose]

set_option maxRecDepth 100000 in
/-- C5: the writer flushes exactly when the buffer reaches `batch_size` on a
received sample or when the flush ticker fires (a tick with an empty buffer
inserts nothing), whichever comes first; consequently 250 samples arriving
faster than the flush interval with `batch_size = 100` produce exactly three
insert calls of sizes 100, 100 and 50, the last at channel close. -/
theorem writer_flushes_on_size_or_time (batchSize : Nat) (s : WriterState Nat)
    (x : Nat) (rest : List Nat) :
    (batchSize ≤ s.buf.length + 1 →
      writerRecvStep batchSize s x rest =
        { buf := [], chan := rest, inserted := s.inserted ++ [s.buf ++ [x]] }) ∧
    (s.buf.length + 1 < batchSize →
      writerRecvStep batchSize s x rest =
        { buf := s.buf ++ [x], chan := rest, inserted := s.inserted }) ∧
    (s.buf ≠ [] →
      flushBuf s = { buf := [], chan := s.chan, inserted := s.inserted ++ [s.buf] }) ∧
    (s.buf = [] → flushBuf s = s) ∧
    (writeLoopExec 100 false scenarioSchedule
        { buf := [], chan := List.range 250, inserted := [] }).map
        (fun w => w.inserted.map List.length) = some [100, 100, 50] := by
  refine ⟨fun h => ?_, fun h => ?_, fun h => ?_, fun h => ?_, by decide⟩
  · unfold writerRecvStep flushBuf
    rw [if_pos h, if_neg (by simp)]
  · unfold writerRecvStep
    rw [if_neg (by omega)]
  · unfold flushBuf
    rw [if_neg (by simpa using h)]
  · unfold flushBuf
    rw [if_pos (by simp [h])]

/-- Witness for C5: a received sample that fills the buffer to `batch_size`
(here 2) triggers an insert of exactly that batch. -/
theorem writer_flushes_on_size_or_time_witness :
    (2 : Nat) ≤ [7].length + 1 ∧
    writerRecvStep 2 { buf := [7], chan := [], inserted := [] } 8 [] =
      { buf := [], chan := [], inserted := [[7, 8]] } :=
  ⟨by decide,
    (writer_flushes_on_size_or_time 2 { buf := [7], chan := [], inserted := [] }
      8 []).1 (by decide)⟩

/-- C4 (refutation): on graceful shutdown, `Run` does close the job queue,
wait for the workers, close the result channel and wait for the writer — but
`writeLoop` also selects on `ctx.Done()`, and once the context is cancelled
that branch is ready in the same `select` as the pending-results branch.  In
the legal schedule where the writer's `select` resolves to the cancellation
branch, `writeLoop` flushes only its buffer and returns, abandoning the
sample still sitting in the result channel: that sample is never passed to an
insert.  The second conjunct shows the alternative resolution of the very
same `select` (receive first, then observe cancellation) delivering the
sample — the loss is schedule-dependent, so the spec's unconditional
"no buffered sample may be lost" does not hold. -/
theorem writer_cancellation_can_lose_pending_sample :
    writeLoopExec 100 true [WriterChoice.ctxDone]
      ({ buf := [], chan := [42], inserted := [] } : WriterState Nat) =
      some { buf := [], chan := [42], inserted := [] } ∧
    writeLoopExec 100 true [WriterChoice.recv, WriterChoice.ctxDone]
      ({ buf := [], chan := [42], inserted := [] } : WriterState Nat) =
      some { buf := [], chan := [], inserted := [[42]] } := by
  constructor
  · rfl
  · rfl

/-! The lifecycle manager (`Manager` in file `part_010`, second revision with
`WithStats`/`WithLogs`).  `Start` is guarded by an atomic compare-and-swap on
`started`; each enabled sub-pipeline gets one supervised goroutine whose
non-cancellation error is recorded into the mutex-guarded first-error slot;
`Wait` joins the wait group and returns the slot.  The goroutines' exits are
modelled as a list of outcomes in completion order; `managerWait` is the
error slot after all of them have run their capture step (`Wait` returns only
after `wg.Wait()`, i.e. after every capture step has happened). -/

inductive RunOutcome
  | ok
  | canceledErr
  | failed (msg : String)
  deriving Repr, DecidableEq

structure ManagerState where
  started : Bool
  runErr : Option String
  deriving Repr, DecidableEq

structure StartResult where
  state : ManagerState
  spawned : Nat
  err : Option String
  deriving Repr, DecidableEq

/-- Go `Manager.Start`: fails (spawning nothing) unless the CAS flips `started`
from false to true; a missing collector for an enabled pipeline is an error
(the stats goroutine is already running when the logs check fails, matching
the Go control flow); otherwise one goroutine per enabled pipeline. -/
def managerStart (statsEnabled logsEnabled hasStats hasLogs : Bool)
    (m : ManagerState) : StartResult :=
  if m.started then
    { state := m, spawned := 0, err := some "manager already started" }
  else if statsEnabled && !hasStats then
    { state := { m with started := true }, spawned := 0,
      err := some "stats collector is required when stats enabled" }
  else if logsEnabled && !hasLogs then
    { state := { m with started := true },
      spawned := if statsEnabled then 1 else 0,
      err := some "logs collector is required when logs enabled" }
  else
    { state := { m with started := true },
      spawned := (if statsEnabled then 1 else 0) + (if logsEnabled then 1 else 0),
      err := none }

/-- The capture step a supervised goroutine runs on exit: a non-nil,
non-cancellation error is stored only if the slot is still empty
(first-wins); everything else leaves the slot alone. -/
def recordRunResult (runErr : Option String) (res : RunOutcome) : Option String :=
  match res with
  | .failed msg => match runErr with | none => some msg | some e => some e
  | _ => runErr

/-- Go `Manager.Wait` after every supervised goroutine has exited, given their
outcomes in completion order. -/
def managerWait (m : ManagerState) (results : List RunOutcome) : Option String :=
  results.foldl recordRunResult m.runErr

/-- The fatal content of one outcome: `nil` and cancellation do not count. -/
def fatalOf : RunOutcome → Option String
  | .failed msg => some msg
  | _ => none

lemma foldl_recordRunResult_some (e : String) (results : List RunOutcome) :
    results.foldl recordRunResult (some e) = some e := by
  induction results with
  | nil => rfl
  | cons r rs ih =>
    cases r <;> simpa [recordRunResult] using ih

/-- C9: `Start` succeeds at most once — a call on a started manager returns
an error, spawns nothing and leaves the state unchanged, while the first call
on a fresh manager with its collectors wired succeeds and spawns one
goroutine per enabled pipeline — and `Wait`, which returns only after all
supervised goroutines exited, yields the first non-cancellation error among
their outcomes (later errors are discarded), or `nil` when no pipeline
failed. -/
theorem manager_start_once_wait_first_error (statsEnabled logsEnabled hasStats hasLogs : Bool)
    (m : ManagerState) (results : List RunOutcome) :
    (m.started = true →
      managerStart statsEnabled logsEnabled hasStats hasLogs m =
        { state := m, spawned := 0, err := some "manager already started" }) ∧
    (m.started = false → hasStats = true → hasLogs = true →
      (managerStart statsEnabled logsEnabled hasStats hasLogs m).err = none ∧
      (managerStart statsEnabled logsEnabled hasStats hasLogs m).state.started = true ∧
      (managerStart statsEnabled logsEnabled hasStats hasLogs m).spawned =
        (if statsEnabled then 1 else 0) + (if logsEnabled then 1 else 0)) ∧
    (managerWait { started := true, runErr := none } results =
      (results.filterMap fatalOf).head?) := by
  refine ⟨fun hstarted => ?_, fun hfresh hs hl => ?_, ?_⟩
  · unfold managerStart
    rw [if_pos hstarted]
  · unfold managerStart
    rw [if_neg (by rw [hfresh]; exact Bool.false_ne_true),
      if_neg (by rw [hs]; simp), if_neg (by rw [hl]; simp)]
    exact ⟨rfl, rfl, rfl⟩
  · unfold managerWait
    induction results with
    | nil => rfl
    | cons r rs ih =>
      cases r with
      | ok => simpa [recordRunResult, fatalOf] using ih
      | canceledErr => simpa [recordRunResult, fatalOf] using ih
      | failed msg =>
        simp only [List.foldl_cons, recordRunResult, List.filterMap_cons, fatalOf]
        rw [foldl_recordRunResult_some]
        rfl

/-- Witness for C9: a second `Start` on a started manager fails and spawns
nothing, and with completion order cancellation / failure "boom" / failure
"later", `Wait` returns "boom". -/
theorem manager_start_once_wait_first_error_witness :
    ({ started := true, runErr := none } : ManagerState).started = true ∧
    managerStart true true true true { started := true, runErr := none } =
      { state := { started := true, runErr := none }, spawned := 0,
        err := some "manager already started" } ∧
    managerWait { started := true, runErr := none }
      [RunOutcome.canceledErr, RunOutcome.failed "boom", RunOutcome.failed "later"] =
      some "boom" := by
  have h := manager_start_once_wait_first_error true true true true
    { started := true, runErr := none }
    [RunOutcome.canceledErr, RunOutcome.failed "boom", RunOutcome.failed "later"]
  exact ⟨rfl, h.1 rfl, by rw [h.2.2]; rfl⟩

end CentAgent
